import Mathlib

/-!
Shallow embedding of the Red Pitaya `asg` module (arbitrary signal
generator, one channel): a synchronous state machine over registers
`ptr_cur`, `cnt_bln`, `cnt_bnm`, `sts_run`, `sts_vld`, `sto.vld`,
`trg_o`, the buffer RAM and the bus registers.  One `tick` is one
`posedge` of the (single) clock; all register updates read the previous
state and commit simultaneously, matching non-blocking assignment
semantics.  Bit widths are modelled by explicit `% 2 ^ w` masking with
the module parameters `M = CWM` (magnitude) and `F = CWF` (fraction)
kept symbolic.
-/

namespace Asg

/-- Registered state of the `asg` module.  `buf_mem` is the DAC buffer
RAM (`2^M` entries, entries beyond the list default to 0);
`ptr_cur` is the `(M+F)`-bit phase accumulator; `cnt_bln` / `cnt_bnm`
are the 32-bit burst-length and 16-bit burst-repetition down-counters. -/
structure State where
  buf_mem : List Nat := []
  buf_rdata : Nat := 0
  buf_raddr : Nat := 0
  ptr_cur : Nat := 0
  cnt_bln : Nat := 0
  cnt_bnm : Nat := 0
  sts_run : Bool := false
  sts_rdt : Bool := false
  sts_vld : Bool := false
  trg_o : Bool := false
  sto_vld : Bool := false
  bus_rdata : Nat := 0
  bus_ack : Bool := false
deriving DecidableEq, Repr

/-- Inputs sampled on one clock edge: the asynchronous-reset level
`rstn`, the synchronous clear `ctl_rst`, the trigger lines and mask,
the periodic- and burst-mode configuration words and the system-bus
request. -/
structure Input where
  rstn : Bool := true
  ctl_rst : Bool := false
  trg_i : Nat := 0
  cfg_trg : Nat := 0
  cfg_siz : Nat := 0
  cfg_stp : Nat := 0
  cfg_off : Nat := 0
  cfg_ben : Bool := false
  cfg_inf : Bool := false
  cfg_bdl : Nat := 0
  cfg_bln : Nat := 0
  cfg_bnm : Nat := 0
  bus_wen : Bool := false
  bus_ren : Bool := false
  bus_addr : Nat := 0
  bus_wdata : Nat := 0
deriving DecidableEq, Repr

/-- `assign trg = |(trg_i & cfg_trg);` -/
def trg (i : Input) : Bool := (i.trg_i &&& i.cfg_trg) != 0

/-- `assign sts_rpt = sts_run & ~|cnt_bln;` -/
def sts_rpt (s : State) : Bool := s.sts_run && s.cnt_bln == 0

/-- `assign sts_trg = sts_run ? sts_rpt : trg;` -/
def sts_trg (s : State) (i : Input) : Bool :=
  if s.sts_run then sts_rpt s else trg i

/-- `assign ptr_nxt = ptr_cur + (cfg_stp + 1);` computed in the
`(M+F+1)`-bit width of the `ptr_nxt` wire. -/
def ptr_nxt (M F : Nat) (s : State) (i : Input) : Nat :=
  (s.ptr_cur + (i.cfg_stp % 2 ^ (M + F) + 1)) % 2 ^ (M + F + 1)

/-- `assign ptr_nxt_sub = ptr_nxt - (cfg_siz + 1);` in `(M+F+1)`-bit
wrapping arithmetic. -/
def ptr_nxt_sub (M F : Nat) (s : State) (i : Input) : Nat :=
  (ptr_nxt M F s i + 2 ^ (M + F + 1) - (i.cfg_siz % 2 ^ (M + F) + 1)) % 2 ^ (M + F + 1)

/-- `assign ptr_nxt_sub_neg = ptr_nxt_sub[CWM+CWF];` the top bit of the
`(M+F+1)`-bit difference. -/
def ptr_nxt_sub_neg (M F : Nat) (s : State) (i : Input) : Bool :=
  ptr_nxt_sub M F s i / 2 ^ (M + F) % 2 == 1

/-- Buffer RAM next contents: `if (bus.wen) buf_mem[bus.addr] <= bus.wdata;`. -/
def nxt_mem (M : Nat) (s : State) (i : Input) : List Nat :=
  if i.bus_wen then s.buf_mem.set (i.bus_addr % 2 ^ M) i.bus_wdata else s.buf_mem

/-- `if (bus.ren) bus.rdata <= buf_mem[bus.addr];` (reads the old RAM). -/
def nxt_bus_rdata (M : Nat) (s : State) (i : Input) : Nat :=
  if i.bus_ren then s.buf_mem.getD (i.bus_addr % 2 ^ M) 0 else s.bus_rdata

/-- `if (~bus.rstn) bus.ack <= 0; else bus.ack <= bus.ren | bus.wen;` -/
def nxt_bus_ack (i : Input) : Bool :=
  if !i.rstn then false else (i.bus_ren || i.bus_wen)

/-- `if (sts_run) buf_raddr <= ptr_cur[CWF+:CWM];` — the read address is
registered from the magnitude bits of the phase accumulator. -/
def nxt_raddr (M F : Nat) (s : State) : Nat :=
  if s.sts_run then s.ptr_cur / 2 ^ F % 2 ^ M else s.buf_raddr

/-- `if (sts_vld) buf_rdata <= buf_mem[buf_raddr];` — the data register,
one cycle behind the address register. -/
def nxt_rdata (s : State) : Nat :=
  if s.sts_vld then s.buf_mem.getD s.buf_raddr 0 else s.buf_rdata

/-- `sts_vld` register: cleared on reset / `ctl_rst`, otherwise follows
`sts_run`. -/
def nxt_vld (s : State) (i : Input) : Bool :=
  if !i.rstn then false else if i.ctl_rst then false else s.sts_run

/-- `sts_run` register of the state machine (lines 188-217 of the
source): reset and `ctl_rst` clear it; in burst mode a trigger event
continues iff `|cnt_bnm` (or starts when idle); in periodic mode a
trigger event sets it. -/
def nxt_run (s : State) (i : Input) : Bool :=
  if !i.rstn then false
  else if i.ctl_rst then false
  else if i.cfg_ben then
    (if sts_trg s i then (if s.sts_run then s.cnt_bnm != 0 else true) else s.sts_run)
  else
    (if sts_trg s i then true else s.sts_run)

/-- `sts_rdt` register (assigned only in the burst trigger branch). -/
def nxt_rdt (s : State) (i : Input) : Bool :=
  if !i.rstn then s.sts_rdt
  else if i.ctl_rst then s.sts_rdt
  else if i.cfg_ben then
    (if sts_trg s i then (if s.sts_run then s.cnt_bnm != 0 else true) else s.sts_rdt)
  else s.sts_rdt

/-- `cnt_bnm` register: on a burst trigger event reload from `cfg_bnm`
when idle, else decrement by `!cfg_inf` in 16-bit wrapping arithmetic. -/
def nxt_bnm (s : State) (i : Input) : Nat :=
  if !i.rstn then 0
  else if i.ctl_rst then 0
  else if i.cfg_ben then
    (if sts_trg s i then
      (if s.sts_run then (s.cnt_bnm + 2 ^ 16 - (if i.cfg_inf then 0 else 1)) % 2 ^ 16
       else i.cfg_bnm % 2 ^ 16)
     else s.cnt_bnm)
  else s.cnt_bnm

/-- `cnt_bln` register: reload from `cfg_bln` on a burst trigger event,
else `cnt_bln <= cnt_bln - sts_run` in 32-bit wrapping arithmetic. -/
def nxt_bln (s : State) (i : Input) : Nat :=
  if !i.rstn then 0
  else if i.ctl_rst then 0
  else if i.cfg_ben then
    (if sts_trg s i then i.cfg_bln % 2 ^ 32
     else (s.cnt_bln + 2 ^ 32 - (if s.sts_run then 1 else 0)) % 2 ^ 32)
  else s.cnt_bln

/-- `ptr_cur` register (lines 229-243): cleared on reset / `ctl_rst`;
loaded with `cfg_off` on a trigger event; otherwise, while running,
`ptr_cur <= ~ptr_nxt_sub_neg ? ptr_nxt_sub : ptr_nxt` truncated to
`M+F` bits. -/
def nxt_ptr (M F : Nat) (s : State) (i : Input) : Nat :=
  if !i.rstn then 0
  else if i.ctl_rst then 0
  else if sts_trg s i then i.cfg_off % 2 ^ (M + F)
  else if s.sts_run then
    (if ptr_nxt_sub_neg M F s i then ptr_nxt M F s i else ptr_nxt_sub M F s i) % 2 ^ (M + F)
  else s.ptr_cur

/-- `trg_o` register: `if (~sto.rstn) trg_o <= 0; else trg_o <= sts_trg;`
(note: not gated by `ctl_rst`). -/
def nxt_trgo (s : State) (i : Input) : Bool :=
  if !i.rstn then false else sts_trg s i

/-- `sto.vld` register: cleared on reset / `ctl_rst`, otherwise follows
`sts_vld`. -/
def nxt_stovld (s : State) (i : Input) : Bool :=
  if !i.rstn then false else if i.ctl_rst then false else s.sts_vld

/-- One clock tick of the whole module: every register reads the old
state and all updates commit together. -/
def tick (M F : Nat) (s : State) (i : Input) : State where
  buf_mem := nxt_mem M s i
  buf_rdata := nxt_rdata s
  buf_raddr := nxt_raddr M F s
  ptr_cur := nxt_ptr M F s i
  cnt_bln := nxt_bln s i
  cnt_bnm := nxt_bnm s i
  sts_run := nxt_run s i
  sts_rdt := nxt_rdt s i
  sts_vld := nxt_vld s i
  trg_o := nxt_trgo s i
  sto_vld := nxt_stovld s i
  bus_rdata := nxt_bus_rdata M s i
  bus_ack := nxt_bus_ack i

/-- `assign sto.dat = buf_rdata;` -/
def sto_dat (s : State) : Nat := s.buf_rdata

/-- Trace of the module under an input stream: `traceFrom M F s ins n`
is the state after `n` ticks starting from `s`, the tick at time `t`
sampling `ins t`. -/
def traceFrom (M F : Nat) (s : State) (ins : Nat → Input) : Nat → State
  | 0 => s
  | n + 1 => tick M F (traceFrom M F s ins n) (ins n)

@[simp] theorem tick_ptr_cur (M F : Nat) (s : State) (i : Input) :
    (tick M F s i).ptr_cur = nxt_ptr M F s i := rfl

@[simp] theorem tick_sts_run (M F : Nat) (s : State) (i : Input) :
    (tick M F s i).sts_run = nxt_run s i := rfl

@[simp] theorem tick_cnt_bln (M F : Nat) (s : State) (i : Input) :
    (tick M F s i).cnt_bln = nxt_bln s i := rfl

@[simp] theorem tick_cnt_bnm (M F : Nat) (s : State) (i : Input) :
    (tick M F s i).cnt_bnm = nxt_bnm s i := rfl

@[simp] theorem tick_sts_vld (M F : Nat) (s : State) (i : Input) :
    (tick M F s i).sts_vld = nxt_vld s i := rfl

@[simp] theorem tick_sto_vld (M F : Nat) (s : State) (i : Input) :
    (tick M F s i).sto_vld = nxt_stovld s i := rfl

@[simp] theorem tick_trg_o (M F : Nat) (s : State) (i : Input) :
    (tick M F s i).trg_o = nxt_trgo s i := rfl

@[simp] theorem tick_buf_rdata (M F : Nat) (s : State) (i : Input) :
    (tick M F s i).buf_rdata = nxt_rdata s := rfl

/-- While the engine runs, on a tick without a trigger event and with the
resets deasserted, the phase register is updated by one add and one
conditional subtract: the subtracted value is kept exactly when the
subtraction does not underflow AND the difference still fits in `M+F`
bits (the top bit of the `(M+F+1)`-bit difference is clear). -/
theorem nxt_ptr_run_char (M F : Nat) (s : State) (i : Input)
    (hrun : s.sts_run = true) (htrg : sts_trg s i = false)
    (hrst : i.ctl_rst = false) (hrstn : i.rstn = true)
    (hp : s.ptr_cur < 2 ^ (M + F)) :
    nxt_ptr M F s i =
      if i.cfg_siz % 2 ^ (M + F) + 1 ≤ s.ptr_cur + (i.cfg_stp % 2 ^ (M + F) + 1)
          ∧ s.ptr_cur + (i.cfg_stp % 2 ^ (M + F) + 1)
              - (i.cfg_siz % 2 ^ (M + F) + 1) < 2 ^ (M + F)
      then s.ptr_cur + (i.cfg_stp % 2 ^ (M + F) + 1) - (i.cfg_siz % 2 ^ (M + F) + 1)
      else (s.ptr_cur + (i.cfg_stp % 2 ^ (M + F) + 1)) % 2 ^ (M + F) := by
  have hw : 0 < 2 ^ (M + F) := Nat.pos_pow_of_pos _ (by norm_num)
  have h2w : 2 ^ (M + F + 1) = 2 * 2 ^ (M + F) := by rw [pow_succ]; ring
  have ha : i.cfg_stp % 2 ^ (M + F) < 2 ^ (M + F) := Nat.mod_lt _ hw
  have hb : i.cfg_siz % 2 ^ (M + F) < 2 ^ (M + F) := Nat.mod_lt _ hw
  have div_one : ∀ v : Nat, 2 ^ (M + F) ≤ v → v < 2 * 2 ^ (M + F) → v / 2 ^ (M + F) = 1 := by
    intro v h1 h2
    rw [Nat.div_eq_sub_div hw h1, Nat.div_eq_of_lt (by omega)]
  have hnx : ptr_nxt M F s i = s.ptr_cur + (i.cfg_stp % 2 ^ (M + F) + 1) := by
    unfold ptr_nxt
    rw [h2w]
    exact Nat.mod_eq_of_lt (by omega)
  by_cases hc : i.cfg_siz % 2 ^ (M + F) + 1 ≤ s.ptr_cur + (i.cfg_stp % 2 ^ (M + F) + 1)
  · have hsubval : ptr_nxt_sub M F s i =
        s.ptr_cur + (i.cfg_stp % 2 ^ (M + F) + 1) - (i.cfg_siz % 2 ^ (M + F) + 1) := by
      unfold ptr_nxt_sub
      rw [hnx, h2w]
      have he : s.ptr_cur + (i.cfg_stp % 2 ^ (M + F) + 1) + 2 * 2 ^ (M + F)
            - (i.cfg_siz % 2 ^ (M + F) + 1)
          = (s.ptr_cur + (i.cfg_stp % 2 ^ (M + F) + 1) - (i.cfg_siz % 2 ^ (M + F) + 1))
            + 2 * 2 ^ (M + F) := by
        omega
      rw [he, Nat.add_mod_right]
      exact Nat.mod_eq_of_lt (by omega)
    by_cases hvw : s.ptr_cur + (i.cfg_stp % 2 ^ (M + F) + 1)
        - (i.cfg_siz % 2 ^ (M + F) + 1) < 2 ^ (M + F)
    · have hneg : ptr_nxt_sub_neg M F s i = false := by
        unfold ptr_nxt_sub_neg
        rw [hsubval, Nat.div_eq_of_lt hvw]
        decide
      unfold nxt_ptr
      simp only [hrst, hrstn, htrg, hrun, hneg, hsubval, Bool.not_true, Bool.false_eq_true,
        if_false, if_true]
      rw [if_pos (And.intro hc hvw)]
      exact Nat.mod_eq_of_lt hvw
    · have hneg : ptr_nxt_sub_neg M F s i = true := by
        unfold ptr_nxt_sub_neg
        rw [hsubval, div_one _ (by omega) (by omega)]
        decide
      unfold nxt_ptr
      simp only [hrst, hrstn, htrg, hrun, hneg, hnx, Bool.not_true, Bool.false_eq_true,
        if_false, if_true]
      rw [if_neg (fun hand => hvw hand.2)]
  · have hsubval : ptr_nxt_sub M F s i =
        s.ptr_cur + (i.cfg_stp % 2 ^ (M + F) + 1) + 2 * 2 ^ (M + F)
          - (i.cfg_siz % 2 ^ (M + F) + 1) := by
      unfold ptr_nxt_sub
      rw [hnx, h2w]
      exact Nat.mod_eq_of_lt (by omega)
    have hneg : ptr_nxt_sub_neg M F s i = true := by
      unfold ptr_nxt_sub_neg
      rw [hsubval, div_one _ (by omega) (by omega)]
      decide
    unfold nxt_ptr
    simp only [hrst, hrstn, htrg, hrun, hneg, hnx, Bool.not_true, Bool.false_eq_true,
      if_false, if_true]
    rw [if_neg (fun hand => hc hand.1)]

/-- `nxt_ptr_run_char` stated for in-range configuration words (the
masks are the identity on values below `2^(M+F)`). -/
theorem nxt_ptr_run_raw (M F : Nat) (s : State) (i : Input)
    (hrun : s.sts_run = true) (htrg : sts_trg s i = false)
    (hrst : i.ctl_rst = false) (hrstn : i.rstn = true)
    (hsiz : i.cfg_siz < 2 ^ (M + F)) (hstp : i.cfg_stp < 2 ^ (M + F))
    (hp : s.ptr_cur < 2 ^ (M + F)) :
    nxt_ptr M F s i =
      if i.cfg_siz + 1 ≤ s.ptr_cur + (i.cfg_stp + 1)
          ∧ s.ptr_cur + (i.cfg_stp + 1) - (i.cfg_siz + 1) < 2 ^ (M + F)
      then s.ptr_cur + (i.cfg_stp + 1) - (i.cfg_siz + 1)
      else (s.ptr_cur + (i.cfg_stp + 1)) % 2 ^ (M + F) := by
  have h := nxt_ptr_run_char M F s i hrun htrg hrst hrstn hp
  rw [Nat.mod_eq_of_lt hsiz, Nat.mod_eq_of_lt hstp] at h
  exact h

/-- Within the intended operating range (`step ≤ size`, phase below
`size+1`) the running-tick pointer update is exactly addition modulo
`size+1`. -/
theorem nxt_ptr_run_mod (M F : Nat) (s : State) (i : Input)
    (hrun : s.sts_run = true) (htrg : sts_trg s i = false)
    (hrst : i.ctl_rst = false) (hrstn : i.rstn = true)
    (hsiz : i.cfg_siz < 2 ^ (M + F)) (hstp : i.cfg_stp ≤ i.cfg_siz)
    (hp : s.ptr_cur < i.cfg_siz + 1) :
    nxt_ptr M F s i = (s.ptr_cur + (i.cfg_stp + 1)) % (i.cfg_siz + 1) := by
  rw [nxt_ptr_run_raw M F s i hrun htrg hrst hrstn hsiz
    (Nat.lt_of_le_of_lt hstp hsiz) (by omega)]
  split_ifs with h
  · have h2 : (s.ptr_cur + (i.cfg_stp + 1)) % (i.cfg_siz + 1)
        = (s.ptr_cur + (i.cfg_stp + 1) - (i.cfg_siz + 1)) % (i.cfg_siz + 1) :=
      Nat.mod_eq_sub_mod h.1
    rw [h2, Nat.mod_eq_of_lt (by omega)]
  · have h3 : s.ptr_cur + (i.cfg_stp + 1) < i.cfg_siz + 1 := by omega
    rw [Nat.mod_eq_of_lt (by omega), Nat.mod_eq_of_lt h3]

/-- The phase update exactly as the spec sentence words it: keep the
reduced value whenever the subtraction `next - (size+1)` does not
underflow (i.e. `next ≥ size+1`), otherwise keep `next`; the stored
value is truncated to the `M+F`-bit register. -/
def specStepPhase (M F phase stp siz : Nat) : Nat :=
  let next := (phase + (stp + 1)) % 2 ^ (M + F + 1)
  if siz + 1 ≤ next then (next - (siz + 1)) % 2 ^ (M + F) else next % 2 ^ (M + F)

/-- C1 (corrected): on a tick where the engine is running, no start
event fires and the resets are deasserted, the phase accumulator gets
`next - (size+1)` exactly when that subtraction does not underflow AND
the difference fits in `M+F` bits (the top bit of the `(M+F+1)`-bit
difference is clear), and otherwise `next` truncated to `M+F` bits.
The original claim selects on underflow alone, which differs from the
hardware sign-bit test when the difference is `≥ 2^(M+F)`. -/
theorem asg_phase_step_amended (M F : Nat) (s : State) (i : Input)
    (hrun : s.sts_run = true) (htrg : sts_trg s i = false)
    (hrst : i.ctl_rst = false) (hrstn : i.rstn = true)
    (hsiz : i.cfg_siz < 2 ^ (M + F)) (hstp : i.cfg_stp < 2 ^ (M + F))
    (hp : s.ptr_cur < 2 ^ (M + F)) :
    (tick M F s i).ptr_cur =
      if i.cfg_siz + 1 ≤ s.ptr_cur + (i.cfg_stp + 1)
          ∧ s.ptr_cur + (i.cfg_stp + 1) - (i.cfg_siz + 1) < 2 ^ (M + F)
      then s.ptr_cur + (i.cfg_stp + 1) - (i.cfg_siz + 1)
      else (s.ptr_cur + (i.cfg_stp + 1)) % 2 ^ (M + F) := by
  rw [tick_ptr_cur]
  exact nxt_ptr_run_raw M F s i hrun htrg hrst hrstn hsiz hstp hp

def c1st : State := { sts_run := true, cnt_bln := 1, ptr_cur := 3 }

def c1in : Input := { cfg_stp := 3, cfg_siz := 0 }

/-- C1 counterexample: with `M = F = 1`, phase `3`, `step = 3`,
`size = 0`, on a running non-trigger tick the module stores `3`
(`ptr_nxt_sub = 6` has its top bit set, so `ptr_nxt` is kept), while
the spec's words demand the reduced value `(7 - 1) mod 4 = 2`. -/
theorem asg_phase_step_cex :
    c1st.sts_run = true ∧ sts_trg c1st c1in = false
      ∧ c1in.ctl_rst = false ∧ c1in.rstn = true
      ∧ (tick 1 1 c1st c1in).ptr_cur
          ≠ specStepPhase 1 1 c1st.ptr_cur c1in.cfg_stp c1in.cfg_siz := by
  decide

def c1wS : State := { sts_run := true, cnt_bln := 1, ptr_cur := 2 }

def c1wI : Input := { cfg_stp := 0, cfg_siz := 2 }

/-- C1 witness: the amended update law applied at `M = F = 1`,
phase `2`, `step = 0`, `size = 2` — the conditional subtract fires and
the phase wraps to `0`. -/
theorem asg_phase_step_amended_witness :
    (tick 1 1 c1wS c1wI).ptr_cur = 0 := by
  have h := asg_phase_step_amended 1 1 c1wS c1wI rfl (by decide) rfl rfl
    (by decide) (by decide) (by decide)
  rw [h]
  decide

/-- C7 (confirmed): once the engine is running and the current burst
period has not expired (`cnt_bln ≠ 0`), the raw trigger lines have no
influence at all: the entire next state is the same for every value of
`trg_i` (the start-event wire `sts_trg` selects `sts_rpt` while
running, ignoring `trg`). -/
theorem asg_no_preemption (M F : Nat) (s : State) (i : Input) (v : Nat)
    (hrun : s.sts_run = true) (_hbln : s.cnt_bln ≠ 0) :
    tick M F s { i with trg_i := v } = tick M F s i := by
  simp only [tick, nxt_mem, nxt_bus_rdata, nxt_bus_ack, nxt_raddr, nxt_rdata, nxt_vld,
    nxt_run, nxt_rdt, nxt_bnm, nxt_bln, nxt_ptr, nxt_trgo, nxt_stovld,
    ptr_nxt, ptr_nxt_sub, ptr_nxt_sub_neg, sts_trg, hrun, if_true]

def c7st : State := { sts_run := true, cnt_bln := 1, ptr_cur := 4, cnt_bnm := 2 }

def c7in : Input := { cfg_ben := true, cfg_siz := 6, cfg_stp := 1 }

/-- C7 witness: a concrete mid-period running state on which a raw
trigger pulse (`trg_i = 5`) leaves the next state unchanged. -/
theorem asg_no_preemption_witness :
    tick 3 0 c7st { c7in with trg_i := 5 } = tick 3 0 c7st c7in :=
  asg_no_preemption 3 0 c7st c7in 5 rfl (by decide)

/-- C8 (corrected): asserting the synchronous clear `ctl_rst` forces,
on the next tick, both valid flags low, `running` false and both burst
counters to zero, regardless of any concurrent start event; but the
trigger-notification register `trg_o` is NOT gated by `ctl_rst` — it
still captures this tick's `sts_trg` event. -/
theorem asg_reset_priority_amended (M F : Nat) (s : State) (i : Input)
    (hrst : i.ctl_rst = true) (hrstn : i.rstn = true) :
    (tick M F s i).sts_vld = false ∧ (tick M F s i).sto_vld = false
      ∧ (tick M F s i).sts_run = false ∧ (tick M F s i).cnt_bln = 0
      ∧ (tick M F s i).cnt_bnm = 0 ∧ (tick M F s i).trg_o = sts_trg s i := by
  refine ⟨?_, ?_, ?_, ?_, ?_, ?_⟩ <;>
    simp [tick, nxt_vld, nxt_stovld, nxt_run, nxt_bln, nxt_bnm, nxt_trgo, hrst, hrstn]

def c8st : State :=
  { sts_run := true, cnt_bln := 5, cnt_bnm := 3, sts_vld := true, sto_vld := true }

def c8in : Input := { ctl_rst := true, trg_i := 1, cfg_trg := 1 }

/-- C8 counterexample: reset asserted on the same tick as a matching
raw trigger from idle — the next tick still raises `trg_o`, which the
original claim says must be forced low. -/
theorem asg_reset_trgo_cex :
    (({ ctl_rst := true, trg_i := 1, cfg_trg := 1 } : Input)).ctl_rst = true
      ∧ (tick 1 1 ({} : State)
          ({ ctl_rst := true, trg_i := 1, cfg_trg := 1 } : Input)).trg_o = true := by
  decide

/-- C8 witness: the amended reset law applied to a concrete running
state with nonzero counters. -/
theorem asg_reset_priority_amended_witness :
    (tick 1 1 c8st c8in).sts_vld = false ∧ (tick 1 1 c8st c8in).sto_vld = false
      ∧ (tick 1 1 c8st c8in).sts_run = false ∧ (tick 1 1 c8st c8in).cnt_bln = 0
      ∧ (tick 1 1 c8st c8in).cnt_bnm = 0
      ∧ (tick 1 1 c8st c8in).trg_o = sts_trg c8st c8in :=
  asg_reset_priority_amended 1 1 c8st c8in rfl rfl

/-- C9 (corrected): outside reset, the internal read-enable `sts_vld`
lags `sts_run` by one cycle, and the stream valid output `sto.vld` lags
`sts_vld` by one more cycle — so `sto.vld` lags `running` by exactly
two cycles, not one as claimed.  The data path matches the claim: when
`sts_vld` holds, next tick's `buf_rdata` (driven combinationally onto
`sto.dat`) is the table sample at the registered address. -/
theorem asg_valid_latency_amended (M F : Nat) (s : State) (i : Input)
    (hrst : i.ctl_rst = false) (hrstn : i.rstn = true) :
    (tick M F s i).sts_vld = s.sts_run
      ∧ (tick M F s i).sto_vld = s.sts_vld
      ∧ (s.sts_vld = true → (tick M F s i).buf_rdata = s.buf_mem.getD s.buf_raddr 0)
      ∧ sto_dat (tick M F s i) = (tick M F s i).buf_rdata := by
  refine ⟨?_, ?_, fun h => ?_, rfl⟩ <;>
    simp [tick, nxt_vld, nxt_stovld, nxt_rdata, hrst, hrstn, *]

def c9st : State := { sts_run := true, sts_vld := false }

def c9in : Input := { cfg_trg := 1 }

/-- C9 counterexample: on the first running tick (`sts_run` true but
`sts_vld` still false) the next tick's `sto.vld` is false, so `sto.vld`
at `t+1` does not equal `sts_run` at `t` as the claim states. -/
theorem asg_valid_latency_cex :
    c9in.ctl_rst = false ∧ c9in.rstn = true ∧ c9st.sts_run = true
      ∧ (tick 1 1 c9st c9in).sto_vld ≠ c9st.sts_run := by
  decide

def c9wS : State :=
  { buf_mem := [7, 9], buf_raddr := 1, sts_run := true, sts_vld := true }

/-- C9 witness: the amended latency law applied to a concrete state
with a two-entry table — the data register picks up entry `1`. -/
theorem asg_valid_latency_amended_witness :
    (tick 1 0 c9wS c9in).sts_vld = c9wS.sts_run
      ∧ (tick 1 0 c9wS c9in).sto_vld = c9wS.sts_vld
      ∧ (c9wS.sts_vld = true →
          (tick 1 0 c9wS c9in).buf_rdata = c9wS.buf_mem.getD c9wS.buf_raddr 0)
      ∧ sto_dat (tick 1 0 c9wS c9in) = (tick 1 0 c9wS c9in).buf_rdata :=
  asg_valid_latency_amended 1 0 c9wS c9in rfl rfl

/-- C10 (confirmed): the burst data length input `cfg_bdl` is declared
but never read by the module, so two executions from the same initial
state whose input streams agree on every field except `cfg_bdl` have
identical state — hence identical outputs — at every tick. -/
theorem asg_bdl_noninterference (M F : Nat) (s : State) (ins : Nat → Input)
    (f : Nat → Nat) :
    ∀ n, traceFrom M F s (fun t => { ins t with cfg_bdl := f t }) n
      = traceFrom M F s ins n := by
  have hone : ∀ (u : State) (i : Input) (v : Nat),
      tick M F u { i with cfg_bdl := v } = tick M F u i := by
    intro u i v
    cases i
    rfl
  intro n
  induction n with
  | zero => rfl
  | succ n ih =>
    show tick M F (traceFrom M F s (fun t => { ins t with cfg_bdl := f t }) n)
        { ins n with cfg_bdl := f n } = tick M F (traceFrom M F s ins n) (ins n)
    rw [ih, hone]

/-- C4 (corrected): (a) for phases below `size+1` AND steps `≤ size`,
one running-tick update keeps the read address (magnitude bits of the
phase) in `[0, size]`; (b) for `size = 2^(M+F) - 1` (maximum table use)
the update is plain unsigned overflow of the `(M+F)`-bit phase
register.  The original claim omits `step ≤ size` in (a) and puts the
maximum-use threshold at `size+1 = 2^M` instead of `2^(M+F)`. -/
theorem asg_wrap_addr_amended (M F : Nat) (s : State) (i : Input)
    (hrun : s.sts_run = true) (htrg : sts_trg s i = false)
    (hrst : i.ctl_rst = false) (hrstn : i.rstn = true)
    (hsiz : i.cfg_siz < 2 ^ (M + F)) (hp : s.ptr_cur < i.cfg_siz + 1) :
    (i.cfg_stp ≤ i.cfg_siz →
        (tick M F s i).ptr_cur / 2 ^ F % 2 ^ M ≤ i.cfg_siz)
      ∧ (i.cfg_siz = 2 ^ (M + F) - 1 → i.cfg_stp < 2 ^ (M + F) →
        (tick M F s i).ptr_cur = (s.ptr_cur + (i.cfg_stp + 1)) % 2 ^ (M + F)) := by
  constructor
  · intro hstp
    have hbound : (tick M F s i).ptr_cur ≤ i.cfg_siz := by
      rw [tick_ptr_cur,
        nxt_ptr_run_mod M F s i hrun htrg hrst hrstn hsiz hstp hp]
      have := Nat.mod_lt (s.ptr_cur + (i.cfg_stp + 1))
        (show 0 < i.cfg_siz + 1 by omega)
      omega
    calc (tick M F s i).ptr_cur / 2 ^ F % 2 ^ M
        ≤ (tick M F s i).ptr_cur / 2 ^ F := Nat.mod_le _ _
      _ ≤ (tick M F s i).ptr_cur := Nat.div_le_self _ _
      _ ≤ i.cfg_siz := hbound
  · intro hs hstp
    rw [tick_ptr_cur,
      nxt_ptr_run_raw M F s i hrun htrg hrst hrstn hsiz hstp (by omega)]
    have hw : 0 < 2 ^ (M + F) := Nat.pos_pow_of_pos _ (by norm_num)
    by_cases hge : 2 ^ (M + F) ≤ s.ptr_cur + (i.cfg_stp + 1)
    · rw [if_pos (by omega)]
      rw [Nat.mod_eq_sub_mod hge, Nat.mod_eq_of_lt (by omega)]
      omega
    · rw [if_neg (by omega)]

def c4st : State := { sts_run := true, cnt_bln := 1, ptr_cur := 0 }

def c4in : Input := { cfg_stp := 5, cfg_siz := 1 }

/-- C4 counterexample: with `M = 2`, `F = 1`, phase `0 < size+1 = 2`
and `step = 5`, one running-tick update leaves phase `4`, whose
magnitude bits give read address `2 ∉ [0, size] = [0, 1]` — the claim's
universal statement over all `step` fails. -/
theorem asg_wrap_addr_cex :
    c4st.ptr_cur < c4in.cfg_siz + 1 ∧ sts_trg c4st c4in = false
      ∧ c4st.sts_run = true
      ∧ ¬ ((tick 2 1 c4st c4in).ptr_cur / 2 ^ 1 % 2 ^ 2 ≤ c4in.cfg_siz) := by
  decide

def c4wS : State := { sts_run := true, cnt_bln := 1, ptr_cur := 5 }

def c4wI : Input := { cfg_stp := 3, cfg_siz := 7 }

/-- C4 witness: both amended conjuncts applied at `M = 2`, `F = 1`,
`size = 7 = 2^3 - 1`, phase `5`, `step = 3`: the new phase is
`(5+4) mod 8 = 1` and the read address `0 ≤ 7`. -/
theorem asg_wrap_addr_amended_witness :
    ((tick 2 1 c4wS c4wI).ptr_cur / 2 ^ 1 % 2 ^ 2 ≤ c4wI.cfg_siz)
      ∧ (tick 2 1 c4wS c4wI).ptr_cur
          = (c4wS.ptr_cur + (c4wI.cfg_stp + 1)) % 2 ^ 3 := by
  have h := asg_wrap_addr_amended 2 1 c4wS c4wI rfl (by decide) rfl rfl
    (by decide) (by decide)
  exact ⟨h.1 (by decide), h.2 (by decide) (by decide)⟩

/-- C3 (corrected): from a phase below `size+1`, with `step ≤ size`
fixed and the engine running with no start event on each of `N`
consecutive ticks, the phase after `N` ticks is
`(phase + N*(step+1)) mod (size+1)`.  The original claim quantifies
over every starting phase and step and uses modulus
`(size+1) * 2^F`, both refuted by the code. -/
theorem asg_freq_law_amended (M F : Nat) (s : State) (ins : Nat → Input)
    (stp siz N : Nat) (hsiz : siz < 2 ^ (M + F)) (hstp : stp ≤ siz)
    (hp : s.ptr_cur < siz + 1)
    (hins : ∀ t, t < N → (ins t).cfg_stp = stp ∧ (ins t).cfg_siz = siz
        ∧ (ins t).ctl_rst = false ∧ (ins t).rstn = true
        ∧ (traceFrom M F s ins t).sts_run = true
        ∧ sts_trg (traceFrom M F s ins t) (ins t) = false) :
    (traceFrom M F s ins N).ptr_cur = (s.ptr_cur + N * (stp + 1)) % (siz + 1) := by
  induction N with
  | zero =>
    show s.ptr_cur = (s.ptr_cur + 0 * (stp + 1)) % (siz + 1)
    rw [Nat.zero_mul, Nat.add_zero, Nat.mod_eq_of_lt hp]
  | succ n ih =>
    have ihv := ih (fun t ht => hins t (Nat.lt_succ_of_lt ht))
    obtain ⟨h1, h2, h3, h4, h5, h6⟩ := hins n (Nat.lt_succ_self n)
    show (tick M F (traceFrom M F s ins n) (ins n)).ptr_cur = _
    rw [tick_ptr_cur]
    rw [nxt_ptr_run_mod M F (traceFrom M F s ins n) (ins n) h5 h6 h3 h4
      (by omega) (by omega)
      (by rw [ihv, h2]; exact Nat.mod_lt _ (by omega))]
    rw [ihv, h1, h2, Nat.mod_add_mod]
    have harith : s.ptr_cur + n * (stp + 1) + (stp + 1)
        = s.ptr_cur + (n + 1) * (stp + 1) := by ring
    rw [harith]

def c3st : State := { sts_run := true, cnt_bln := 1, ptr_cur := 0 }

def c3in : Input := { cfg_stp := 1, cfg_siz := 0 }

/-- C3 counterexample: with `M = F = 1`, `size = 0`, `step = 1`,
starting phase `0`, one running-tick step leaves phase `1`, while the
claim's law `(0 + 1*(step+1)) mod ((size+1) * 2^F) = 0` demands `0`. -/
theorem asg_freq_law_cex :
    (traceFrom 1 1 c3st (fun _ => c3in) 0).sts_run = true
      ∧ sts_trg c3st c3in = false
      ∧ (traceFrom 1 1 c3st (fun _ => c3in) 1).ptr_cur
          ≠ (c3st.ptr_cur + 1 * (c3in.cfg_stp + 1))
              % ((c3in.cfg_siz + 1) * 2 ^ 1) := by
  decide

def c3wS : State := { sts_run := true, cnt_bln := 9, ptr_cur := 0 }

def c3wI : Input := { cfg_ben := true, cfg_stp := 1, cfg_siz := 3 }

/-- C3 witness: the amended frequency law applied over `N = 3` ticks at
`M = 2`, `F = 0`, `size = 3`, `step = 1`: the phase lands on
`(0 + 3*2) mod 4 = 2`. -/
theorem asg_freq_law_amended_witness :
    (traceFrom 2 0 c3wS (fun _ => c3wI) 3).ptr_cur
      = (c3wS.ptr_cur + 3 * (c3wI.cfg_stp + 1)) % (c3wI.cfg_siz + 1) :=
  asg_freq_law_amended 2 0 c3wS (fun _ => c3wI) 1 3 3 (by decide) (by decide)
    (by decide) (by decide)

def c2cfg : Input := { cfg_trg := 1, cfg_siz := 9 }

def c2ins : Nat → Input := fun t => if t = 0 then { c2cfg with trg_i := 1 } else c2cfg

/-- C2 (code bug): periodic mode with `M = 4`, `F = 0`, `size = 9`,
`step = 0`, `offset = 0` and one matching trigger at tick 0.  Because
`cnt_bln` stays `0` in periodic mode, `sts_rpt` — and hence the start
event `sts_trg` — is true on every running tick, so `ptr_cur` is
reloaded with `cfg_off` each tick: the read address stays `0` forever
instead of sweeping `0..9` with period 10 as the module's own header
comment (frequency `Fs/(cfg_siz+1)*(cfg_stp+1)/2^CWF`) promises. -/
theorem asg_periodic_example_bug :
    (List.range 13).map (fun n => (traceFrom 4 0 ({} : State) c2ins n).buf_raddr)
        = List.replicate 13 0
      ∧ (List.range 13).map (fun n => (traceFrom 4 0 ({} : State) c2ins n).ptr_cur)
        = List.replicate 13 0
      ∧ (traceFrom 4 0 ({} : State) c2ins 5).sts_run = true
      ∧ sts_trg (traceFrom 4 0 ({} : State) c2ins 5) (c2ins 5) = true := by
  decide

def c6cfg : Input :=
  { cfg_trg := 1, cfg_siz := 15, cfg_ben := true, cfg_inf := false,
    cfg_bdl := 3, cfg_bln := 6, cfg_bnm := 2 }

def c6ins : Nat → Input := fun t => if t = 0 then { c6cfg with trg_i := 1 } else c6cfg

/-- C6 (code bug): burst mode with `dataLength = cfg_bdl = 3`, a 7-tick
period (`cfg_bln = 6`), `repeatCount = 2`, unit stride, single trigger
at tick 0.  The module's header diagram promises `cfg_bdl+1 = 4` data
ticks followed by idle repetition of the last sample, but `cfg_bdl` is
never read: the playback pointer advances `0,1,2,3,4,5,6` through the
whole first period (ticks 1-7) — including the 3 ticks the claim says
it must hold — and the engine is still running at the period's end. -/
theorem asg_burst_idle_advances_bug :
    (List.range 8).map (fun n => (traceFrom 4 0 ({} : State) c6ins n).ptr_cur)
        = [0, 0, 1, 2, 3, 4, 5, 6]
      ∧ (traceFrom 4 0 ({} : State) c6ins 7).sts_run = true
      ∧ (traceFrom 4 0 ({} : State) c6ins 7).cnt_bnm = 2 := by
  decide

/-- Mid-period burst tick: while running with a nonzero burst-length
counter, the engine keeps running, the length counter decrements and
the repetition counter holds. -/
theorem burst_tick_mid (M F : Nat) (iq : Input) (s : State)
    (hq1 : iq.rstn = true) (hq2 : iq.ctl_rst = false) (hq3 : iq.cfg_ben = true)
    (h1 : s.sts_run = true) (h2 : s.cnt_bln ≠ 0) (hb : s.cnt_bln < 2 ^ 32) :
    (tick M F s iq).sts_run = true ∧ (tick M F s iq).cnt_bln = s.cnt_bln - 1
      ∧ (tick M F s iq).cnt_bnm = s.cnt_bnm := by
  have hst : sts_trg s iq = false := by
    simp [sts_trg, sts_rpt, h1, h2]
  refine ⟨?_, ?_, ?_⟩
  · simp [tick, nxt_run, hst, hq1, hq2, hq3, h1]
  · simp only [tick_cnt_bln, nxt_bln, hst, hq1, hq2, hq3, h1, Bool.not_true,
      Bool.false_eq_true, if_false, if_true]
    have he : s.cnt_bln + 2 ^ 32 - 1 = (s.cnt_bln - 1) + 2 ^ 32 := by omega
    rw [he, Nat.add_mod_right]
    exact Nat.mod_eq_of_lt (by omega)
  · simp [tick, nxt_bnm, hst, hq1, hq2, hq3]

/-- Period-boundary burst tick with repetitions left: the engine keeps
running, reloads the length counter from `cfg_bln` and decrements the
repetition counter. -/
theorem burst_tick_boundary_continue (M F : Nat) (iq : Input) (s : State) (m : Nat)
    (hq1 : iq.rstn = true) (hq2 : iq.ctl_rst = false) (hq3 : iq.cfg_ben = true)
    (hq5 : iq.cfg_inf = false)
    (h1 : s.sts_run = true) (h2 : s.cnt_bln = 0) (h3 : s.cnt_bnm = m + 1)
    (hm : m + 1 < 2 ^ 16) :
    (tick M F s iq).sts_run = true ∧ (tick M F s iq).cnt_bln = iq.cfg_bln % 2 ^ 32
      ∧ (tick M F s iq).cnt_bnm = m := by
  have hst : sts_trg s iq = true := by
    simp [sts_trg, sts_rpt, h1, h2]
  refine ⟨?_, ?_, ?_⟩
  · simp [tick, nxt_run, hst, hq1, hq2, hq3, h1, h3]
  · simp [tick, nxt_bln, hst, hq1, hq2, hq3]
  · simp only [tick_cnt_bnm, nxt_bnm, hst, hq1, hq2, hq3, hq5, h1, h3, Bool.not_true,
      Bool.false_eq_true, if_false, if_true]
    have he : m + 1 + 2 ^ 16 - 1 = m + 2 ^ 16 := by omega
    rw [he, Nat.add_mod_right]
    exact Nat.mod_eq_of_lt (by omega)

/-- Period-boundary burst tick with no repetitions left: the engine
stops. -/
theorem burst_tick_boundary_stop (M F : Nat) (iq : Input) (s : State)
    (hq1 : iq.rstn = true) (hq2 : iq.ctl_rst = false) (hq3 : iq.cfg_ben = true)
    (h1 : s.sts_run = true) (h2 : s.cnt_bln = 0) (h3 : s.cnt_bnm = 0) :
    (tick M F s iq).sts_run = false := by
  have hst : sts_trg s iq = true := by
    simp [sts_trg, sts_rpt, h1, h2]
  simp [tick, nxt_run, hst, hq1, hq2, hq3, h1, h3]

/-- With no matching trigger on the lines, a stopped engine stays
stopped. -/
theorem run_false_stays (M F : Nat) (iq : Input) (s : State)
    (hq4 : trg iq = false) (h1 : s.sts_run = false) :
    (tick M F s iq).sts_run = false := by
  have hst : sts_trg s iq = false := by
    simp [sts_trg, h1, hq4]
  simp [tick, nxt_run, hst, h1]

/-- Iterated form of `run_false_stays`. -/
theorem run_false_iterate (M F : Nat) (iq : Input) (hq4 : trg iq = false) :
    ∀ p (s : State), s.sts_run = false →
      ((fun x => tick M F x iq)^[p] s).sts_run = false := by
  intro p
  induction p with
  | zero => intro s h; simpa using h
  | succ n ih =>
    intro s h
    rw [Function.iterate_succ_apply]
    exact ih _ (run_false_stays M F iq s hq4 h)

/-- Countdown through one burst period: for `j` ticks the engine stays
running, the length counter drops by `j` and the repetition counter
holds. -/
theorem burst_countdown (M F : Nat) (iq : Input)
    (hq1 : iq.rstn = true) (hq2 : iq.ctl_rst = false) (hq3 : iq.cfg_ben = true) :
    ∀ j b m (s : State), s.sts_run = true → s.cnt_bln = b → s.cnt_bnm = m →
      b < 2 ^ 32 → j ≤ b →
      ((fun x => tick M F x iq)^[j] s).sts_run = true
        ∧ ((fun x => tick M F x iq)^[j] s).cnt_bln = b - j
        ∧ ((fun x => tick M F x iq)^[j] s).cnt_bnm = m := by
  intro j
  induction j with
  | zero =>
    intro b m s h1 h2 h3 hb hj
    exact ⟨h1, by simpa using h2, h3⟩
  | succ n ih =>
    intro b m s h1 h2 h3 hb hj
    subst h2
    subst h3
    rw [Function.iterate_succ_apply]
    obtain ⟨hr, hbl, hbm⟩ := burst_tick_mid M F iq s hq1 hq2 hq3 h1 (by omega) hb
    have hrest := ih (s.cnt_bln - 1) s.cnt_bnm (tick M F s iq) hr hbl hbm
      (by omega) (by omega)
    refine ⟨hrest.1, ?_, hrest.2.2⟩
    rw [hrest.2.1]
    omega

/-- Burst run-length law: from a running state with length counter `b`
and repetition counter `m`, under period length `L+1`, the engine is
still running after `n` further quiet ticks exactly when
`n ≤ b + m*(L+1)`. -/
theorem burst_run_count (M F : Nat) (iq : Input) (L : Nat)
    (hq1 : iq.rstn = true) (hq2 : iq.ctl_rst = false) (hq3 : iq.cfg_ben = true)
    (hq4 : trg iq = false) (hq5 : iq.cfg_inf = false) (hq6 : iq.cfg_bln = L)
    (hL : L < 2 ^ 32) :
    ∀ m b (s : State), s.sts_run = true → s.cnt_bln = b → s.cnt_bnm = m →
      b < 2 ^ 32 → m < 2 ^ 16 →
      ∀ n, (((fun x => tick M F x iq)^[n] s).sts_run = true ↔ n ≤ b + m * (L + 1)) := by
  intro m
  induction m with
  | zero =>
    intro b s h1 h2 h3 hb hm n
    rcases le_or_lt n b with hn | hn
    · have hcd := burst_countdown M F iq hq1 hq2 hq3 n b 0 s h1 h2 h3 hb hn
      rw [hcd.1]
      simp
      omega
    · have hcd := burst_countdown M F iq hq1 hq2 hq3 b b 0 s h1 h2 h3 hb (le_refl b)
      have hstop : ((fun x => tick M F x iq)^[b + 1] s).sts_run = false := by
        rw [Function.iterate_succ_apply']
        exact burst_tick_boundary_stop M F iq _ hq1 hq2 hq3 hcd.1
          (by simpa using hcd.2.1) hcd.2.2
      obtain ⟨p, hp⟩ : ∃ p, n = p + (b + 1) := ⟨n - (b + 1), by omega⟩
      subst hp
      rw [Function.iterate_add_apply]
      rw [run_false_iterate M F iq hq4 p _ hstop]
      simp
      omega
  | succ m ih =>
    intro b s h1 h2 h3 hb hm n
    rcases le_or_lt n b with hn | hn
    · have hcd := burst_countdown M F iq hq1 hq2 hq3 n b (m + 1) s h1 h2 h3 hb hn
      rw [hcd.1]
      simp
      calc n ≤ b := hn
        _ ≤ b + (m + 1) * (L + 1) := Nat.le_add_right _ _
    · have hcd := burst_countdown M F iq hq1 hq2 hq3 b b (m + 1) s h1 h2 h3 hb (le_refl b)
      have hcont := burst_tick_boundary_continue M F iq _ m hq1 hq2 hq3 hq5 hcd.1
        (by simpa using hcd.2.1) hcd.2.2 (by omega)
      have hbleq : (tick M F ((fun x => tick M F x iq)^[b] s) iq).cnt_bln = L := by
        rw [hcont.2.1, hq6]
        exact Nat.mod_eq_of_lt hL
      obtain ⟨p, hp⟩ : ∃ p, n = p + (b + 1) := ⟨n - (b + 1), by omega⟩
      subst hp
      rw [Function.iterate_add_apply]
      rw [show ((fun x => tick M F x iq)^[b + 1] s)
          = tick M F ((fun x => tick M F x iq)^[b] s) iq
        from Function.iterate_succ_apply' _ _ _]
      rw [ih L (tick M F ((fun x => tick M F x iq)^[b] s) iq) hcont.1 hbleq
        hcont.2.2 hL (by omega) p]
      have hexp : (m + 1) * (L + 1) = m * (L + 1) + (L + 1) := by ring
      omega

/-- C5 (confirmed): in burst mode with `repeatCount = k` and
`infiniteRepeat` off, after one arming trigger received while idle the
engine runs for exactly `(k+1)*(L+1)` consecutive ticks — `k+1` burst
periods of `L+1 = periodLength+1` ticks each — and then `running` is
false and stays false while no further matching trigger arrives. -/
theorem asg_burst_repeat_exact (M F : Nat) (s0 : State) (it iq : Input) (k L : Nat)
    (h0 : s0.sts_run = false)
    (ht1 : it.rstn = true) (ht2 : it.ctl_rst = false) (ht3 : it.cfg_ben = true)
    (ht4 : trg it = true) (ht5 : it.cfg_bnm = k) (ht6 : it.cfg_bln = L)
    (hq1 : iq.rstn = true) (hq2 : iq.ctl_rst = false) (hq3 : iq.cfg_ben = true)
    (hq4 : trg iq = false) (hq5 : iq.cfg_inf = false) (hq6 : iq.cfg_bln = L)
    (hk : k < 2 ^ 16) (hL : L < 2 ^ 32) :
    ∀ n, (((fun x => tick M F x iq)^[n] (tick M F s0 it)).sts_run = true
      ↔ n < (k + 1) * (L + 1)) := by
  have hst : sts_trg s0 it = true := by
    simp [sts_trg, h0, ht4]
  have h1run : (tick M F s0 it).sts_run = true := by
    simp [tick, nxt_run, hst, ht1, ht2, ht3, h0]
  have h1bln : (tick M F s0 it).cnt_bln = L := by
    simp only [tick_cnt_bln, nxt_bln, hst, ht1, ht2, ht3, Bool.not_true,
      Bool.false_eq_true, if_false, if_true]
    rw [ht6]
    exact Nat.mod_eq_of_lt hL
  have h1bnm : (tick M F s0 it).cnt_bnm = k := by
    simp only [tick_cnt_bnm, nxt_bnm, hst, ht1, ht2, ht3, h0, Bool.not_true,
      Bool.false_eq_true, if_false, if_true]
    rw [ht5]
    exact Nat.mod_eq_of_lt hk
  intro n
  rw [burst_run_count M F iq L hq1 hq2 hq3 hq4 hq5 hq6 hL k L (tick M F s0 it)
    h1run h1bln h1bnm hL hk n]
  have hexp : (k + 1) * (L + 1) = k * (L + 1) + (L + 1) := by ring
  omega

def c5s0 : State := {}

def c5it : Input := { trg_i := 1, cfg_trg := 1, cfg_ben := true, cfg_bln := 1, cfg_bnm := 1 }

def c5iq : Input := { cfg_ben := true, cfg_bln := 1 }

/-- C5 witness: `k = 1`, `L = 1`: two 2-tick periods — the engine is
still running 3 ticks after the arming trigger and stopped at tick 4. -/
theorem asg_burst_repeat_exact_witness :
    ((fun x => tick 1 0 x c5iq)^[3] (tick 1 0 c5s0 c5it)).sts_run = true
      ∧ ¬ (((fun x => tick 1 0 x c5iq)^[4] (tick 1 0 c5s0 c5it)).sts_run = true) := by
  have h := asg_burst_repeat_exact 1 0 c5s0 c5it c5iq 1 1 rfl rfl rfl rfl (by decide)
    rfl rfl rfl rfl rfl (by decide) rfl rfl (by decide) (by decide)
  exact ⟨(h 3).mpr (by decide), fun hr => absurd ((h 4).mp hr) (by decide)⟩

end Asg
